import Mathlib

/-!
Verification of the Fare Resolution Engine of `Application_v2.py`.

The Python program is shallowly embedded below.  Pandas `DataFrame`s are
modelled as a column count together with the rows restricted to the columns
the program actually reads (columns 0, 1, 7 of the stop table and columns
0, 1, 2, 3 of the route table); cells are strings (the program applies
`astype(str)`/`str(...)` before every comparison it makes).  Python `dict`s
are modelled as association lists in insertion order, `dict.setdefault` as
an insert-if-absent, and Python `set` accumulation followed by `sorted(...)`
as deduplication followed by insertion sort.  Exception-to-empty-result
behaviour (`try`/`except` around fixed column access) is modelled by the
explicit column-count tests.  Where the program iterates a Python `set` of
strings (`common_services`) — whose iteration order is unspecified
(hash-randomised) — the embedding takes the iteration order as an explicit
`svcOrder` argument.
-/

namespace Fares

/-- Lexicographic (code-point) comparison of character lists, the order
Python uses to compare and sort strings. -/
def charListLe : List Char → List Char → Bool
  | [], _ => true
  | _ :: _, [] => false
  | a :: as, b :: bs =>
    if a < b then true else if b < a then false else charListLe as bs

/-- Python string `<=` (lexicographic by code point). -/
def pyLe (a b : String) : Bool := charListLe a.data b.data

/-- `pyLe` as a relation, for use with `List.insertionSort`. -/
def strLeRel (a b : String) : Prop := pyLe a b = true

instance : DecidableRel strLeRel := fun a b => by unfold strLeRel; infer_instance

/-- Python `sorted` on strings. -/
def pySorted (l : List String) : List String := List.insertionSort strLeRel l

/-- Drop leading and trailing whitespace from a character list. -/
def stripList (l : List Char) : List Char :=
  ((l.dropWhile Char.isWhitespace).reverse.dropWhile Char.isWhitespace).reverse

/-- Python `str.strip()` (for the ASCII whitespace occurring in the data). -/
def pyStrip (s : String) : String := ⟨stripList s.data⟩

/-- Python `str.lower()` (for the ASCII letters occurring in the data). -/
def pyLower (s : String) : String := ⟨s.data.map Char.toLower⟩

/-- Does the first list start with the second? -/
def listStarts : List Char → List Char → Bool
  | _, [] => true
  | [], _ :: _ => false
  | a :: as, b :: bs => if a = b then listStarts as bs else false

/-- Python `str.startswith`. -/
def pyStartsWith (s pre : String) : Bool := listStarts s.data pre.data

/-- Python slicing `s[n:]` (by character count). -/
def pyDrop (s : String) (n : Nat) : String := ⟨s.data.drop n⟩

/-- Python `len` on a string (character count). -/
def pyLen (s : String) : Nat := s.data.length

/-- One row of the stop table: column 0 (service code), column 1 (fare
stage) and column 7 (place), as read by the program. -/
structure StopRow where
  code : String
  stage : String
  place : String
deriving DecidableEq, Repr

/-- The stop table: its column count and its rows (restricted to the three
columns the program reads).  `ncols < 8` models the malformed table whose
fixed-position column access raises. -/
structure StopsDF where
  ncols : Nat
  rows : List StopRow
deriving DecidableEq, Repr

/-- One row of the route table: column 0 (service code), column 1 (route
display name), column 2 (school flag), column 3 (display route number). -/
structure RouteRow where
  code : String
  name : String
  school : String
  number : String
deriving DecidableEq, Repr

/-- The route table. -/
structure RoutesDF where
  ncols : Nat
  rows : List RouteRow
deriving DecidableEq, Repr

/-- A parsed tariff document: `zone_lookup` (zone id → zone name) and
`fares` ((start id, end id) → price string), each in dict iteration
order. -/
structure ParsedEntry where
  zone_lookup : List (String × String)
  fares : List ((String × String) × String)
deriving DecidableEq, Repr

/-- `PARSED_DATA`: tariff documents keyed by document name. -/
def ParsedData := List (String × ParsedEntry)

/-- Python `dict` lookup on an association list (first matching key). -/
def alookup {α β : Type} [DecidableEq α] : List (α × β) → α → Option β
  | [], _ => none
  | (k, v) :: rest, k' => if k = k' then some v else alookup rest k'

/-- Python `dict.setdefault k v`: insert `(k, v)` only when `k` is absent. -/
def setd {α β : Type} [DecidableEq α] (m : List (α × β)) (k : α) (v : β) :
    List (α × β) :=
  if (alookup m k).isSome then m else m ++ [(k, v)]

/-- Python `dict` assignment `m[k] = v` (replace or append). -/
def astore {α β : Type} [DecidableEq α] (m : List (α × β)) (k : α) (v : β) :
    List (α × β) :=
  if (alookup m k).isSome then m.map (fun p => if p.1 = k then (k, v) else p)
  else m ++ [(k, v)]

/-- `d.setdefault(place, set()).add(stage)` on a place → stage-set
multimap kept as an association list of duplicate-free lists. -/
def addToMultimap (m : List (String × List String)) (k v : String) :
    List (String × List String) :=
  match m with
  | [] => [(k, [v])]
  | (k', vs) :: rest =>
    if k' = k then (k', if v ∈ vs then vs else vs ++ [v]) :: rest
    else (k', vs) :: addToMultimap rest k v

/-- `route_files_for(parsed_data, route)`: the sorted document keys that
start with `route ++ " "`. -/
def route_files_for (parsed : ParsedData) (route : String) : List String :=
  (pySorted (parsed.map Prod.fst)).filter
    (fun k => pyStartsWith k (route ++ " "))

/-- `faretype_from_key(route, key)`: the fare-type suffix of a document
key, when the key starts with `route ++ " "`. -/
def faretype_from_key (route key : String) : Option String :=
  if pyStartsWith key (route ++ " ") then
    some (pyStrip (pyDrop key (pyLen route)))
  else none

/-- The document-matching test of `evaluate_price_options` (both paths):
when the requested fare type is the canonical `"U19 Single"` the three
alias suffixes all match, otherwise the suffix must match verbatim. -/
def fare_key_matches (route faretype key : String) : Bool :=
  match faretype_from_key route key with
  | some ft =>
    if faretype = "U19 Single" ∧
        (ft = "U19 Single" ∨ ft = "U19 MySingle" ∨ ft = "igo Single") then
      true
    else decide (ft = faretype)
  | none => false

/-- `route_name_to_service_code(routes_df, route_name)`: the column-0 value
of the first row whose trimmed column-1 value equals `route_name`. -/
def route_name_to_service_code (routes : RoutesDF) (route_name : String) :
    Option String :=
  if routes.rows = [] then none
  else if 2 ≤ routes.ncols then
    ((routes.rows.filter (fun r => pyStrip r.name = route_name)).head?).map
      (fun r => r.code)
  else none

/-- `service_code_to_route_name(routes_df, service_code)`: the column-1
value of the first row whose trimmed column-0 value equals the trimmed
service code. -/
def service_code_to_route_name (routes : RoutesDF) (service_code : String) :
    Option String :=
  if routes.rows = [] then none
  else if 2 ≤ routes.ncols then
    ((routes.rows.filter
        (fun r => pyStrip r.code = pyStrip service_code)).head?).map
      (fun r => r.name)
  else none

/-- `build_place_to_stage_map_for_service(stops_df, service_code)`: filter
the stop rows to the (trimmed) service code, trim each stage/place pair,
skip a row whose stage or place is empty after trimming, accumulate into
place → stage-set and stage → place-set maps, and sort each value set. -/
def build_place_to_stage_map_for_service (stops : StopsDF)
    (service_code : String) :
    List (String × List String) × List (String × List String) :=
  if stops.rows = [] then ([], [])
  else if stops.ncols < 8 then ([], [])
  else
    let subset := stops.rows.filter
      (fun r => pyStrip r.code = pyStrip service_code)
    let maps := subset.foldl
      (fun (acc : List (String × List String) × List (String × List String)) r =>
        let stage := pyStrip r.stage
        let place := pyStrip r.place
        if stage = "" ∨ place = "" then acc
        else (addToMultimap acc.1 place stage, addToMultimap acc.2 stage place))
      ([], [])
    (maps.1.map (fun p => (p.1, pySorted p.2)),
     maps.2.map (fun p => (p.1, pySorted p.2)))

/-- `get_all_places_from_stops(stops_df, routes_df, include_school_services)`:
the sorted distinct trimmed places (dropping empty and `"nan"` values); when
school services are excluded and the route table has a school column, keep
only places served (by raw cell comparison) by some non-school code. -/
def get_all_places_from_stops (stops : StopsDF) (routes : RoutesDF)
    (include_school_services : Bool) : List String :=
  if stops.rows = [] then []
  else if stops.ncols < 8 then []
  else
    let all_places := pySorted
      (((stops.rows.map (fun r => pyStrip r.place)).dedup).filter
        (fun p => p ≠ "" ∧ pyLower p ≠ "nan"))
    if include_school_services then all_places
    else if routes.rows = [] ∨ routes.ncols < 3 then all_places
    else
      let non_school_codes :=
        (routes.rows.filter (fun r => pyLower r.school ≠ "yes")).map
          (fun r => r.code)
      pySorted (all_places.filter (fun place =>
        ((stops.rows.filter (fun r => r.place = place)).map
          (fun r => r.code)).any (fun c => c ∈ non_school_codes)))

/-- `get_reachable_places(stops_df, start_place)`: the service codes of the
rows whose place cell equals `start_place` (raw comparison), then the
sorted distinct trimmed places of all rows with one of those codes, minus
`start_place`, empty values and `"nan"`. -/
def get_reachable_places (stops : StopsDF) (start_place : String) :
    List String :=
  if start_place = "" then []
  else if stops.rows = [] then []
  else if stops.ncols < 8 then []
  else
    let services := (stops.rows.filter (fun r => r.place = start_place)).map
      (fun r => r.code)
    if services = [] then []
    else
      let subset := stops.rows.filter (fun r => r.code ∈ services)
      pySorted (((subset.map (fun r => pyStrip r.place)).dedup).filter
        (fun p => p ≠ start_place ∧ p ≠ "" ∧ pyLower p ≠ "nan"))

/-- The `common_services` set of `evaluate_price_options`: the codes of
rows whose place cell equals the start place (raw comparison) intersected
with the codes of rows whose place cell equals the end place.  Membership
and emptiness of this set are order-independent; only its iteration order
(taken as `svcOrder` below) is unspecified. -/
def common_services_of (stops : StopsDF) (start_place end_place : String) :
    List String :=
  if stops.ncols < 8 then []
  else
    let ss := (stops.rows.filter (fun r => r.place = start_place)).map
      (fun r => r.code)
    let se := (stops.rows.filter (fun r => r.place = end_place)).map
      (fun r => r.code)
    (ss.filter (fun c => c ∈ se)).dedup

/-- The aggregated zone lookup `zl`, reverse name lookup `n2i` and merged
price map `fdict` of `evaluate_price_options`. -/
structure Merged where
  zl : List (String × String)
  n2i : List (String × String)
  fdict : List ((String × String) × String)
deriving DecidableEq, Repr

/-- Merging one parsed entry into the aggregate: `zl.setdefault(zid, zname)`
and `n2i.setdefault(zname, zid)` for each zone pair, then
`fdict.setdefault(pair, price)` for each fare pair. -/
def mergeEntry (m : Merged) (e : ParsedEntry) : Merged :=
  let zn := e.zone_lookup.foldl
    (fun (acc : List (String × String) × List (String × String)) zp =>
      (setd acc.1 zp.1 zp.2, setd acc.2 zp.2 zp.1)) (m.zl, m.n2i)
  { zl := zn.1, n2i := zn.2,
    fdict := e.fares.foldl (fun f pr => setd f pr.1 pr.2) m.fdict }

/-- `PARSED_DATA.get(key, {})`. -/
def entryOf (parsed : ParsedData) (key : String) : ParsedEntry :=
  (alookup parsed key).getD ⟨[], []⟩

/-- Merging the entries of a list of document keys, first-write-wins, in
list order. -/
def mergeKeys (parsed : ParsedData) (keys : List String) : Merged :=
  keys.foldl (fun m k => mergeEntry m (entryOf parsed k)) ⟨[], [], []⟩

/-- One step of the no-route document-collection loop: resolve a service
code to a route name and append that route's matching document keys (in
ascending key order). -/
def noRouteStep (parsed : ParsedData) (routes : RoutesDF) (faretype : String)
    (acc : List String) (svc : String) : List String :=
  match service_code_to_route_name routes svc with
  | none => acc
  | some rn =>
    if rn = "" then acc
    else acc ++ (route_files_for parsed rn).filter
      (fun k => fare_key_matches rn faretype k)

/-- The matched document keys of the no-route branch: iterate the common
services in the given order, resolve each to a route name, and take that
route's matching document keys in ascending key order. -/
def noRouteKeys (parsed : ParsedData) (routes : RoutesDF)
    (svcOrder : List String) (faretype : String) : List String :=
  svcOrder.foldl (noRouteStep parsed routes faretype) []

/-- The stage-name union of the no-route branch: union over the iterated
services of `p2s.get(place, [])`, then sorted. -/
def stage_union (stops : StopsDF) (svcOrder : List String) (place : String) :
    List String :=
  pySorted ((svcOrder.foldl (fun acc svc =>
    acc ++ ((alookup
      (build_place_to_stage_map_for_service stops svc).1 place).getD []))
    []).dedup)

/-- `[n2i.get(n) for n in stages if n2i.get(n)]`: translate stage names to
zone ids, dropping absent names and falsy (empty) ids. -/
def translate_ids (n2i : List (String × String)) (stages : List String) :
    List String :=
  stages.filterMap (fun n =>
    match alookup n2i n with
    | some z => if z = "" then none else some z
    | none => none)

/-- `fdict.get((s, e)) or fdict.get((e, s))`: the forward price when it is
truthy (non-empty), else the reverse entry. -/
def pairPrice (fdict : List ((String × String) × String)) (s e : String) :
    Option String :=
  match alookup fdict (s, e) with
  | some p => if p = "" then alookup fdict (e, s) else some p
  | none => alookup fdict (e, s)

/-- Python truthiness of a looked-up price: `some p` only when `p` is a
non-empty string. -/
def truthyPrice : Option String → Option String
  | some p => if p = "" then none else some p
  | none => none

/-- The price-collection double loop: for each (start id, end id) pair with
a truthy symmetric price, add the price to the distinct-price set and store
the pair in `pm`. -/
def collect_prices (fdict : List ((String × String) × String))
    (start_ids end_ids : List String) :
    List String × List ((String × String) × String) :=
  start_ids.foldl (fun acc s =>
    end_ids.foldl (fun acc2 e =>
      match truthyPrice (pairPrice fdict s e) with
      | some p =>
        ((if p ∈ acc2.1 then acc2.1 else acc2.1 ++ [p]), astore acc2.2 (s, e) p)
      | none => acc2) acc) ([], [])

/-- The distinct prices found over the start × end id cross product, in
encounter order. -/
def pricesOf (fdict : List ((String × String) × String))
    (start_ids end_ids : List String) : List String :=
  (collect_prices fdict start_ids end_ids).1

/-- The pair → price map found over the start × end id cross product. -/
def pmOf (fdict : List ((String × String) × String))
    (start_ids end_ids : List String) : List ((String × String) × String) :=
  (collect_prices fdict start_ids end_ids).2

/-- `start_candidates`: the start-side stage names whose id participates in
at least one matched pair of `pm`. -/
def narrowed_start (n2i : List (String × String))
    (pm : List ((String × String) × String)) (end_ids : List String)
    (start_stages : List String) : List String :=
  start_stages.filter (fun name =>
    match alookup n2i name with
    | some z =>
      if z = "" then false
      else end_ids.any (fun e =>
        (alookup pm (z, e)).isSome || (alookup pm (e, z)).isSome)
    | none => false)

/-- `end_candidates`: the end-side stage names whose id participates in at
least one matched pair of `pm`. -/
def narrowed_end (n2i : List (String × String))
    (pm : List ((String × String) × String)) (start_ids : List String)
    (end_stages : List String) : List String :=
  end_stages.filter (fun name =>
    match alookup n2i name with
    | some z =>
      if z = "" then false
      else start_ids.any (fun s =>
        (alookup pm (s, z)).isSome || (alookup pm (z, s)).isSome)
    | none => false)

/-- The outcome of the fare computation of `evaluate_price_options`,
one constructor per distinct UI outcome. -/
inductive FareResult where
  | incomplete
  | noFareFiles
  | noServicesBoth
  | serviceCodeNotFound
  | noMatchingStages
  | noFareFound
  | priced (amount : String)
  | multipleFares (prices : List String)
  | needsStageSelection (startC endC : Option (List String))
deriving DecidableEq, Repr

/-- The distinct prices found for two stage-name lists, after translating
them to zone ids. -/
def distinctPricesOf (n2i : List (String × String))
    (fdict : List ((String × String) × String))
    (start_stages end_stages : List String) : List String :=
  pricesOf fdict (translate_ids n2i start_stages) (translate_ids n2i end_stages)

/-- The narrowed start-side candidates (`start_candidates` in the
source). -/
def startCandOf (n2i : List (String × String))
    (fdict : List ((String × String) × String))
    (start_stages end_stages : List String) : List String :=
  narrowed_start n2i
    (pmOf fdict (translate_ids n2i start_stages) (translate_ids n2i end_stages))
    (translate_ids n2i end_stages) start_stages

/-- The narrowed end-side candidates (`end_candidates` in the source). -/
def endCandOf (n2i : List (String × String))
    (fdict : List ((String × String) × String))
    (start_stages end_stages : List String) : List String :=
  narrowed_end n2i
    (pmOf fdict (translate_ids n2i start_stages) (translate_ids n2i end_stages))
    (translate_ids n2i start_stages) end_stages

/-- `show_start_stage` after narrowing: more than one raw stage and more
than one narrowed candidate. -/
def showStartOf (n2i : List (String × String))
    (fdict : List ((String × String) × String))
    (start_stages end_stages : List String) : Bool :=
  decide (1 < start_stages.length) &&
    decide (1 < (startCandOf n2i fdict start_stages end_stages).length)

/-- `show_end_stage` after narrowing. -/
def showEndOf (n2i : List (String × String))
    (fdict : List ((String × String) × String))
    (start_stages end_stages : List String) : Bool :=
  decide (1 < end_stages.length) &&
    decide (1 < (endCandOf n2i fdict start_stages end_stages).length)

/-- The pricing stage of `evaluate_price_options` (its final block):
translate the stage names, price the cross product, and return the priced /
ambiguous / stage-selection outcome.  `needsStageSelection` carries the
sorted narrowed candidate list of each side that is shown (`none` for a
side folded into a fixed choice). -/
def price_core (n2i : List (String × String))
    (fdict : List ((String × String) × String))
    (start_stages end_stages : List String) : FareResult :=
  if translate_ids n2i start_stages = [] ∨ translate_ids n2i end_stages = []
  then .noMatchingStages
  else
    match distinctPricesOf n2i fdict start_stages end_stages with
    | [] => .noFareFound
    | [p] => .priced p
    | _ :: _ :: _ =>
      if showStartOf n2i fdict start_stages end_stages = false ∧
          showEndOf n2i fdict start_stages end_stages = false then
        .multipleFares (pySorted (distinctPricesOf n2i fdict start_stages end_stages))
      else
        .needsStageSelection
          (if showStartOf n2i fdict start_stages end_stages then
            some (pySorted (startCandOf n2i fdict start_stages end_stages))
          else none)
          (if showEndOf n2i fdict start_stages end_stages then
            some (pySorted (endCandOf n2i fdict start_stages end_stages))
          else none)

/-- The fare computation of `evaluate_price_options` (lines 697–836 of the
source).  `svcOrder` is the iteration order of the Python set
`common_services` in the no-route branch; Python string-set iteration order
is unspecified, so it is an explicit argument. -/
def evaluate_price_options (parsed : ParsedData) (routes : RoutesDF)
    (stops : StopsDF) (svcOrder : List String)
    (route faretype start_place end_place : String) : FareResult :=
  if faretype = "" ∨ start_place = "" ∨ end_place = "" then .incomplete
  else if route ≠ "" then
    let matched := (route_files_for parsed route).filter
      (fun k => fare_key_matches route faretype k)
    if matched = [] then .noFareFiles
    else
      let m := mergeKeys parsed matched
      match route_name_to_service_code routes route with
      | none => .serviceCodeNotFound
      | some sc =>
        if sc = "" then .serviceCodeNotFound
        else
          let p2s := (build_place_to_stage_map_for_service stops sc).1
          price_core m.n2i m.fdict ((alookup p2s start_place).getD [])
            ((alookup p2s end_place).getD [])
  else
    let common := common_services_of stops start_place end_place
    if common = [] then .noServicesBoth
    else
      let m := mergeKeys parsed (noRouteKeys parsed routes svcOrder faretype)
      price_core m.n2i m.fdict (stage_union stops svcOrder start_place)
        (stage_union stops svcOrder end_place)

/-- The alias-folding accumulation step of `compute_fare_types`: an alias
suffix contributes the canonical label, any other truthy suffix
contributes itself. -/
def fold_fare_type (acc : List String) (ft : String) : List String :=
  if ft = "U19 Single" ∨ ft = "U19 MySingle" ∨ ft = "igo Single" then
    acc ++ ["U19 Single"]
  else if ft ≠ "" then acc ++ [ft]
  else acc

/-- One step of the per-document fare-type accumulation for a route. -/
def cftStep (route : String) (acc : List String) (k : String) : List String :=
  match faretype_from_key route k with
  | some ft => fold_fare_type acc ft
  | none => acc

/-- One step of the per-service fare-type accumulation of the no-route
branch of `compute_fare_types`. -/
def cftSvcStep (parsed : ParsedData) (routes : RoutesDF) (acc : List String)
    (svc : String) : List String :=
  match service_code_to_route_name routes svc with
  | none => acc
  | some rn =>
    if rn = "" then acc
    else (route_files_for parsed rn).foldl (cftStep rn) acc

/-- `compute_fare_types()` (lines 583–617 of the source): the sorted
distinct fare-type labels offered for the current selection, with the three
alias suffixes folded into `"U19 Single"`.  Returns `none` for the case in
which the original raises (no route selected, non-empty stop table with
fewer than 8 columns); `svcOrder` is again the iteration order of the
common-services set. -/
def compute_fare_types (parsed : ParsedData) (routes : RoutesDF)
    (stops : StopsDF) (selRoute selStart selEnd : String)
    (svcOrder : List String) : Option (List String) :=
  if ¬(selRoute ≠ "" ∨ (selStart ≠ "" ∧ selEnd ≠ "")) then some []
  else if selRoute ≠ "" then
    some (pySorted
      (((route_files_for parsed selRoute).foldl (cftStep selRoute) []).dedup))
  else if stops.rows = [] then some []
  else if stops.ncols < 8 then none
  else
    some (pySorted
      ((svcOrder.foldl (cftSvcStep parsed routes) []).dedup))

/-- The display number of the currently selected route, as the
other-services block computes it: the column-3 (or column-1) value of the
first route row whose raw column-0 value equals the current service
code. -/
def currentNumberOf (routes : RoutesDF) (route : String) : Option String :=
  match route_name_to_service_code routes route with
  | none => none
  | some c =>
    match (routes.rows.filter (fun r => r.code = c)).map
        (fun r => if 4 ≤ routes.ncols then r.number else r.name) with
    | [] => none
    | cn :: _ => some cn

/-- The row mask of the other-services block: the row's code is a common
service, its (lowercased) school flag is not `"yes"` when the school
column exists, and — when a route is selected — its code does not start
with `"9"`. -/
def osMasked (routes : RoutesDF) (common : List String) (exclude9 : Bool) :
    List RouteRow :=
  routes.rows.filter (fun r =>
    decide (r.code ∈ common) &&
      (if 3 ≤ routes.ncols then decide (pyLower r.school ≠ "yes") else true) &&
      (if exclude9 then ! pyStartsWith r.code "9" else true))

/-- The display values of the masked rows: column 3 when present, else
column 1, else the sorted common codes themselves. -/
def osNumbers (routes : RoutesDF) (common : List String) (exclude9 : Bool) :
    List String :=
  if 4 ≤ routes.ncols then (osMasked routes common exclude9).map (fun r => r.number)
  else if 2 ≤ routes.ncols then (osMasked routes common exclude9).map (fun r => r.name)
  else pySorted common

/-- The display values with the current route's own display number
removed, when a route is selected and its display number is found. -/
def osNumbers2 (routes : RoutesDF) (common : List String) (route : String) :
    List String :=
  if route ≠ "" then
    match currentNumberOf routes route with
    | none => osNumbers routes common (route ≠ "")
    | some cn => (osNumbers routes common (route ≠ "")).filter (fun r => r ≠ cn)
  else osNumbers routes common (route ≠ "")

/-- The other-services display of `evaluate_price_options` (lines 650–695
of the source): the sorted distinct display numbers of the non-school
services common to both places, with service codes starting with `"9"`
dropped when a route is selected, and the current route's display number
dropped.  `none` models an empty display. -/
def other_services (routes : RoutesDF) (stops : StopsDF)
    (route start_place end_place : String) : Option (List String) :=
  if start_place = "" ∨ end_place = "" then none
  else if common_services_of stops start_place end_place = [] then none
  else if pySorted (osNumbers2 routes
      (common_services_of stops start_place end_place) route).dedup = [] then
    none
  else
    some (pySorted (osNumbers2 routes
      (common_services_of stops start_place end_place) route).dedup)

/-- The stream of `(zone id, zone name)` pairs in the order the merge loop
of `evaluate_price_options` visits them for a given document-key list. -/
def zoneStream (parsed : ParsedData) : List String → List (String × String)
  | [] => []
  | k :: ks => (entryOf parsed k).zone_lookup ++ zoneStream parsed ks

/-- Scenario fixture: one tariff document priced 2.50 between the two
stages of service `"1"` (`"RX"`), using the `"U19 Single"` fare-type
suffix. -/
def parsedU : ParsedData :=
  [("RX U19 Single",
    ⟨[("Z1", "SA"), ("Z2", "SB")], [(("Z1", "Z2"), "2.50")]⟩)]

/-- Route table for `parsedU`. -/
def routesU : RoutesDF := ⟨4, [⟨"1", "RX", "no", "1"⟩]⟩

/-- Stop table for `parsedU`. -/
def stopsU : StopsDF := ⟨8, [⟨"1", "SA", "Town"⟩, ⟨"1", "SB", "Village"⟩]⟩

/-- Fixture for merge-order dependence: two services between the same two
places, whose documents give the same zone names different ids and
different prices. -/
def parsedM : ParsedData :=
  [("RA Single", ⟨[("Z1", "S"), ("Y1", "T")], [(("Z1", "Y1"), "1.00")]⟩),
   ("RB Single", ⟨[("Z2", "S"), ("Y2", "T")], [(("Z2", "Y2"), "2.00")]⟩)]

/-- `parsedM` with its two documents supplied in the opposite order. -/
def parsedMswap : ParsedData :=
  [("RB Single", ⟨[("Z2", "S"), ("Y2", "T")], [(("Z2", "Y2"), "2.00")]⟩),
   ("RA Single", ⟨[("Z1", "S"), ("Y1", "T")], [(("Z1", "Y1"), "1.00")]⟩)]

/-- Route table for `parsedM`. -/
def routesM : RoutesDF := ⟨4, [⟨"1", "RA", "no", "1"⟩, ⟨"2", "RB", "no", "2"⟩]⟩

/-- Stop table for `parsedM`: both services serve places `"P"` and
`"Q"`. -/
def stopsM : StopsDF :=
  ⟨8, [⟨"1", "S", "P"⟩, ⟨"1", "T", "Q"⟩, ⟨"2", "S", "P"⟩, ⟨"2", "T", "Q"⟩]⟩

/-- Fixture for the other-services display: service `"123"` has display
number `"9A"`, service `"7"` (`"Route Y"`) has display number `"7"`. -/
def routesN : RoutesDF :=
  ⟨4, [⟨"123", "Route X", "no", "9A"⟩, ⟨"7", "Route Y", "no", "7"⟩]⟩

/-- Stop table for `routesN`: both services serve places `"A"` and
`"B"`. -/
def stopsN : StopsDF :=
  ⟨8, [⟨"123", "S1", "A"⟩, ⟨"123", "S2", "B"⟩, ⟨"7", "T1", "A"⟩,
       ⟨"7", "T2", "B"⟩]⟩

/-- Stop table whose only row has the literal stage value `"nan"` (what
`str()` of a missing spreadsheet cell produces). -/
def stopsNan : StopsDF := ⟨8, [⟨"10", "nan", "Town"⟩]⟩

/-- Stop table whose first row stores its place name with surrounding
whitespace. -/
def stopsWS : StopsDF :=
  ⟨8, [⟨"10", "A", " Town "⟩, ⟨"10", "B", "Village"⟩]⟩

/-- Stop table whose only row stores its service code with surrounding
whitespace. -/
def stopsWS2 : StopsDF := ⟨8, [⟨" 10 ", "A", "Town"⟩]⟩

/-- A malformed stop table with only 3 columns. -/
def stopsShort : StopsDF := ⟨3, [⟨"10", "A", "Town"⟩]⟩

/-- A one-entry price-pair map, for witnesses. -/
def fdictW : List ((String × String) × String) := [(("Z1", "Z2"), "2.50")]

instance : IsTotal String strLeRel := by
  constructor
  intro s t
  unfold strLeRel pyLe
  generalize s.data = x
  generalize t.data = y
  induction x generalizing y with
  | nil => left; rfl
  | cons a as ih =>
    cases y with
    | nil => right; rfl
    | cons b bs =>
      rcases lt_trichotomy a b with h | h | h
      · left; simp [charListLe, h]
      · subst h
        rcases ih bs with h2 | h2
        · left; simp [charListLe, lt_irrefl, h2]
        · right; simp [charListLe, lt_irrefl, h2]
      · right; simp [charListLe, h, lt_asymm h]

instance : IsTrans String strLeRel := by
  constructor
  intro s t u
  unfold strLeRel pyLe
  generalize s.data = x
  generalize t.data = y
  generalize u.data = z
  induction x generalizing y z with
  | nil => intro _ _; rfl
  | cons a as ih =>
    cases y with
    | nil => intro h1; simp [charListLe] at h1
    | cons b bs =>
      cases z with
      | nil => intro _ h2; simp [charListLe] at h2
      | cons c cs =>
        intro h1 h2
        rcases lt_trichotomy a b with hab | hab | hab
        · rcases lt_trichotomy b c with hbc | hbc | hbc
          · simp [charListLe, lt_trans hab hbc]
          · subst hbc; simp [charListLe, hab]
          · simp [charListLe, hbc, lt_asymm hbc] at h2
        · subst hab
          rcases lt_trichotomy a c with hac | hac | hac
          · simp [charListLe, hac]
          · subst hac
            simp [charListLe, lt_irrefl] at h1 h2 ⊢
            exact ih bs cs h1 h2
          · simp [charListLe, hac, lt_asymm hac] at h2
        · simp [charListLe, hab, lt_asymm hab] at h1

instance : IsAntisymm String strLeRel := by
  have key : ∀ x y : List Char,
      charListLe x y = true → charListLe y x = true → x = y := by
    intro x
    induction x with
    | nil =>
      intro y
      cases y with
      | nil => intro _ _; rfl
      | cons b bs => intro _ h2; simp [charListLe] at h2
    | cons a as ih =>
      intro y
      cases y with
      | nil => intro h1; simp [charListLe] at h1
      | cons b bs =>
        intro h1 h2
        rcases lt_trichotomy a b with hab | hab | hab
        · simp [charListLe, hab, lt_asymm hab] at h2
        · subst hab
          simp [charListLe, lt_irrefl] at h1 h2
          rw [ih bs h1 h2]
        · simp [charListLe, hab, lt_asymm hab] at h1
  constructor
  intro s t h1 h2
  unfold strLeRel pyLe at h1 h2
  obtain ⟨x⟩ := s
  obtain ⟨y⟩ := t
  rw [key x y h1 h2]

theorem pySorted_perm (l : List String) : List.Perm (pySorted l) l :=
  List.perm_insertionSort _ l

theorem pySorted_sorted (l : List String) : List.Sorted strLeRel (pySorted l) :=
  List.sorted_insertionSort _ l

theorem mem_pySorted {a : String} {l : List String} :
    a ∈ pySorted l ↔ a ∈ l :=
  (pySorted_perm l).mem_iff

theorem pySorted_eq_of_perm {l₁ l₂ : List String} (h : List.Perm l₁ l₂) :
    pySorted l₁ = pySorted l₂ :=
  List.eq_of_perm_of_sorted
    ((pySorted_perm l₁).trans (h.trans (pySorted_perm l₂).symm))
    (pySorted_sorted l₁) (pySorted_sorted l₂)

theorem alookup_cons {α β : Type} [DecidableEq α] (k' : α) (v' : β)
    (rest : List (α × β)) (k : α) :
    alookup ((k', v') :: rest) k =
      if k' = k then some v' else alookup rest k := rfl

theorem alookup_mem {α β : Type} [DecidableEq α] {m : List (α × β)} {k : α}
    {v : β} (h : alookup m k = some v) : (k, v) ∈ m := by
  induction m with
  | nil => simp [alookup] at h
  | cons p rest ih =>
    obtain ⟨k', v'⟩ := p
    rw [alookup_cons] at h
    by_cases hk : k' = k
    · subst hk
      rw [if_pos rfl] at h
      cases h
      exact List.mem_cons_self _ _
    · rw [if_neg hk] at h
      exact List.mem_cons_of_mem _ (ih h)

theorem alookup_append {α β : Type} [DecidableEq α] (m₁ m₂ : List (α × β))
    (k : α) :
    alookup (m₁ ++ m₂) k =
      match alookup m₁ k with
      | some v => some v
      | none => alookup m₂ k := by
  induction m₁ with
  | nil => simp [alookup]
  | cons p rest ih =>
    obtain ⟨k', v'⟩ := p
    by_cases hk : k' = k
    · simp [alookup, hk]
    · simp [alookup, hk, ih]

theorem setd_alookup {α β : Type} [DecidableEq α] (m : List (α × β)) (k k' : α)
    (v : β) :
    alookup (setd m k v) k' =
      match alookup m k' with
      | some w => some w
      | none => if k = k' then some v else none := by
  unfold setd
  by_cases hs : (alookup m k).isSome
  · rw [if_pos hs]
    cases h : alookup m k' with
    | some w => simp
    | none =>
      simp only
      by_cases hk : k = k'
      · subst hk
        rw [h] at hs
        simp at hs
      · simp [hk]
  · rw [if_neg hs]
    rw [alookup_append]
    cases h : alookup m k' with
    | some w => simp
    | none => simp [alookup]

theorem foldl_setd_swap_alookup (l : List (String × String))
    (m : List (String × String)) (name : String) :
    alookup (l.foldl (fun acc zp => setd acc zp.2 zp.1) m) name =
      match alookup m name with
      | some v => some v
      | none => (l.find? (fun p => p.2 = name)).map Prod.fst := by
  induction l generalizing m with
  | nil => cases h : alookup m name <;> simp [h]
  | cons zp rest ih =>
    simp only [List.foldl_cons]
    rw [ih]
    rw [setd_alookup]
    cases h : alookup m name with
    | some v => simp
    | none =>
      by_cases hn : zp.2 = name
      · have hd : (decide (zp.2 = name)) = true := by simp [hn]
        simp [hn, List.find?_cons, hd]
      · have hd : (decide (zp.2 = name)) = false := by simp [hn]
        simp [hn, List.find?_cons, hd]

theorem pair_fold_snd (pairs : List (String × String))
    (zl n2i : List (String × String)) :
    (pairs.foldl
      (fun acc zp => (setd acc.1 zp.1 zp.2, setd acc.2 zp.2 zp.1))
      (zl, n2i)).2 =
      pairs.foldl (fun acc zp => setd acc zp.2 zp.1) n2i := by
  induction pairs generalizing zl n2i with
  | nil => rfl
  | cons zp rest ih =>
    simp only [List.foldl_cons]
    exact ih _ _

theorem mergeEntry_n2i (m : Merged) (e : ParsedEntry) :
    (mergeEntry m e).n2i =
      e.zone_lookup.foldl (fun acc zp => setd acc zp.2 zp.1) m.n2i :=
  pair_fold_snd e.zone_lookup m.zl m.n2i

theorem mergeKeys_n2i_general (parsed : ParsedData) (keys : List String)
    (m : Merged) :
    (keys.foldl (fun acc k => mergeEntry acc (entryOf parsed k)) m).n2i =
      (zoneStream parsed keys).foldl (fun acc zp => setd acc zp.2 zp.1)
        m.n2i := by
  induction keys generalizing m with
  | nil => rfl
  | cons k ks ih =>
    simp only [List.foldl_cons, zoneStream, List.foldl_append]
    rw [ih, mergeEntry_n2i]

/-- C2: the price-pair lookup of `evaluate_price_options` is logically
symmetric: when the map holds at most one direction of a pair (and stores
only truthy prices, as the parser guarantees), looking the pair up forwards
and backwards gives the same price, and when the forward entry is missing
the reverse entry's price stands in. -/
theorem pair_price_symmetric (fdict : List ((String × String) × String))
    (a b : String) :
    ((∀ pr ∈ fdict, pr.2 ≠ "") →
      (a = b ∨ alookup fdict (a, b) = none ∨ alookup fdict (b, a) = none) →
      pairPrice fdict a b = pairPrice fdict b a) ∧
    (∀ p, alookup fdict (a, b) = none → alookup fdict (b, a) = some p →
      pairPrice fdict a b = some p) := by
  constructor
  · intro hne hdir
    rcases hdir with h | h | h
    · subst h; rfl
    · unfold pairPrice
      cases hr : alookup fdict (b, a) with
      | none => rw [h]
      | some p =>
        have hp : p ≠ "" := hne _ (alookup_mem hr)
        rw [h]
        simp [hp]
    · unfold pairPrice
      cases hf : alookup fdict (a, b) with
      | none => rw [h]
      | some p =>
        have hp : p ≠ "" := hne _ (alookup_mem hf)
        rw [h]
        simp [hp]
  · intro p hf hr
    unfold pairPrice
    rw [hf, hr]

/-- Witness for C2 at a concrete one-entry price map. -/
theorem pair_price_symmetric_witness :
    pairPrice fdictW "Z2" "Z1" = pairPrice fdictW "Z1" "Z2" ∧
    pairPrice fdictW "Z2" "Z1" = some "2.50" := by
  constructor
  · exact (pair_price_symmetric fdictW "Z2" "Z1").1 (by decide) (by decide)
  · exact (pair_price_symmetric fdictW "Z2" "Z1").2 "2.50" (by decide)
      (by decide)

/-- C9: for every stop table with fewer than 8 columns, the place-to-stage
map construction, the all-places enumeration and the reachability query
each return their empty result. -/
theorem short_table_empty_results (stops : StopsDF) (routes : RoutesDF)
    (inc : Bool) (sc q : String) (h : stops.ncols < 8) :
    build_place_to_stage_map_for_service stops sc = ([], []) ∧
    get_all_places_from_stops stops routes inc = [] ∧
    get_reachable_places stops q = [] := by
  refine ⟨?_, ?_, ?_⟩
  · unfold build_place_to_stage_map_for_service
    by_cases hr : stops.rows = [] <;> simp [hr, h]
  · unfold get_all_places_from_stops
    by_cases hr : stops.rows = [] <;> simp [hr, h]
  · unfold get_reachable_places
    by_cases hr : stops.rows = [] <;> by_cases hq : q = "" <;>
      simp [hr, hq, h]

/-- Witness for C9 at a concrete 3-column table. -/
theorem short_table_empty_results_witness :
    stopsShort.ncols < 8 ∧
    (build_place_to_stage_map_for_service stopsShort "10" = ([], []) ∧
     get_all_places_from_stops stopsShort routesU false = [] ∧
     get_reachable_places stopsShort "Town" = []) :=
  ⟨by decide,
   short_table_empty_results stopsShort routesU false "10" "Town" (by decide)⟩

/-- C10: in the merged reverse name-to-id map, each zone name is bound to
the id of the first zone-lookup entry bearing that name in the merge
order (first-write-wins applies to duplicate names as well), so every
stage name translates to exactly one zone id and later duplicate-named
ids are unreachable through name translation. -/
theorem name_to_id_first_write_wins (parsed : ParsedData)
    (keys : List String) (name : String) :
    alookup (mergeKeys parsed keys).n2i name =
      ((zoneStream parsed keys).find? (fun p => p.2 = name)).map Prod.fst := by
  unfold mergeKeys
  rw [mergeKeys_n2i_general]
  rw [foldl_setd_swap_alookup]
  rfl

theorem foldl_id {α β : Type} (l : List β) (a : α) :
    l.foldl (fun acc _ => acc) a = a := by
  induction l generalizing a with
  | nil => rfl
  | cons x xs ih => exact ih a

theorem collect_prices_nil_right (fdict : List ((String × String) × String))
    (s : List String) : collect_prices fdict s [] = ([], []) :=
  foldl_id s ([], [])

theorem startCand_length_le (n2i : List (String × String))
    (fdict : List ((String × String) × String)) (st en : List String) :
    (startCandOf n2i fdict st en).length ≤ st.length := by
  unfold startCandOf narrowed_start
  exact List.length_filter_le _ _

theorem endCand_length_le (n2i : List (String × String))
    (fdict : List ((String × String) × String)) (st en : List String) :
    (endCandOf n2i fdict st en).length ≤ en.length := by
  unfold endCandOf narrowed_end
  exact List.length_filter_le _ _

theorem showStart_iff (n2i : List (String × String))
    (fdict : List ((String × String) × String)) (st en : List String) :
    showStartOf n2i fdict st en = true ↔
      1 < (startCandOf n2i fdict st en).length := by
  unfold showStartOf
  constructor
  · intro h
    simp only [Bool.and_eq_true, decide_eq_true_eq] at h
    exact h.2
  · intro h
    have h2 : 1 < st.length := lt_of_lt_of_le h (startCand_length_le n2i fdict st en)
    simp [h, h2]

theorem showEnd_iff (n2i : List (String × String))
    (fdict : List ((String × String) × String)) (st en : List String) :
    showEndOf n2i fdict st en = true ↔
      1 < (endCandOf n2i fdict st en).length := by
  unfold showEndOf
  constructor
  · intro h
    simp only [Bool.and_eq_true, decide_eq_true_eq] at h
    exact h.2
  · intro h
    have h2 : 1 < en.length := lt_of_lt_of_le h (endCand_length_le n2i fdict st en)
    simp [h, h2]

/-- C1: the pricing stage returns `needsStageSelection` exactly when the
distinct-price set has at least two members and at least one endpoint has
more than one narrowed candidate; with at least two prices but no such
endpoint it returns the sorted distinct prices as `multipleFares`; and it
returns `priced p` exactly when the distinct-price set is `[p]`. -/
theorem price_core_disambiguation (n2i : List (String × String))
    (fdict : List ((String × String) × String)) (st en : List String) :
    ((∃ a b, price_core n2i fdict st en = .needsStageSelection a b) ↔
      2 ≤ (distinctPricesOf n2i fdict st en).length ∧
        (1 < (startCandOf n2i fdict st en).length ∨
         1 < (endCandOf n2i fdict st en).length)) ∧
    (∀ l, price_core n2i fdict st en = .multipleFares l ↔
      2 ≤ (distinctPricesOf n2i fdict st en).length ∧
        (startCandOf n2i fdict st en).length ≤ 1 ∧
        (endCandOf n2i fdict st en).length ≤ 1 ∧
        l = pySorted (distinctPricesOf n2i fdict st en)) ∧
    (∀ p, price_core n2i fdict st en = .priced p ↔
      distinctPricesOf n2i fdict st en = [p]) := by
  by_cases hid : translate_ids n2i st = [] ∨ translate_ids n2i en = []
  · have hpr : distinctPricesOf n2i fdict st en = [] := by
      unfold distinctPricesOf pricesOf
      rcases hid with h | h
      · rw [h]
        rfl
      · rw [h, collect_prices_nil_right]
    have hres : price_core n2i fdict st en = .noMatchingStages := by
      unfold price_core
      rw [if_pos hid]
    rw [hpr, hres]
    refine ⟨?_, ?_, ?_⟩
    · constructor
      · rintro ⟨a, b, hab⟩
        cases hab
      · rintro ⟨h2, _⟩
        simp at h2
    · intro l
      constructor
      · intro hl
        cases hl
      · rintro ⟨h2, _⟩
        simp at h2
    · intro p
      constructor
      · intro hx
        cases hx
      · intro hx
        cases hx
  · rcases hp : distinctPricesOf n2i fdict st en with _ | ⟨p, rest⟩
    · have hres : price_core n2i fdict st en = .noFareFound := by
        unfold price_core
        rw [if_neg hid, hp]
      rw [hres]
      refine ⟨?_, ?_, ?_⟩
      · constructor
        · rintro ⟨a, b, hab⟩
          cases hab
        · rintro ⟨h2, _⟩
          simp at h2
      · intro l
        constructor
        · intro hl
          cases hl
        · rintro ⟨h2, _⟩
          simp at h2
      · intro x
        constructor
        · intro hx
          cases hx
        · intro hx
          simp at hx
    · rcases rest with _ | ⟨q, rest2⟩
      · have hres : price_core n2i fdict st en = .priced p := by
          unfold price_core
          rw [if_neg hid, hp]
        rw [hres]
        refine ⟨?_, ?_, ?_⟩
        · constructor
          · rintro ⟨a, b, hab⟩
            cases hab
          · rintro ⟨h2, _⟩
            rw [List.length_singleton] at h2
            omega
        · intro l
          constructor
          · intro hl
            cases hl
          · rintro ⟨h2, _⟩
            rw [List.length_singleton] at h2
            omega
        · intro x
          constructor
          · intro hx
            cases hx
            rfl
          · intro hx
            cases hx
            rfl
      · have hlen : 2 ≤ (p :: q :: rest2).length :=
          Nat.le_add_left 2 rest2.length
        by_cases hS : showStartOf n2i fdict st en = true
        · by_cases hE : showEndOf n2i fdict st en = true
          · have hres : price_core n2i fdict st en =
                .needsStageSelection
                  (some (pySorted (startCandOf n2i fdict st en)))
                  (some (pySorted (endCandOf n2i fdict st en))) := by
              unfold price_core
              rw [if_neg hid, hp]
              simp [hS, hE]
            rw [hres]
            refine ⟨?_, ?_, ?_⟩
            · constructor
              · intro _
                exact ⟨hlen, Or.inl ((showStart_iff n2i fdict st en).mp hS)⟩
              · intro _
                exact ⟨_, _, rfl⟩
            · intro l
              constructor
              · intro hl
                cases hl
              · rintro ⟨_, hsc, _, _⟩
                have := (showStart_iff n2i fdict st en).mp hS
                omega
            · intro x
              constructor
              · intro hx
                cases hx
              · intro hx
                simp at hx
          · have hE' : showEndOf n2i fdict st en = false := by
              rw [Bool.not_eq_true] at hE
              exact hE
            have hres : price_core n2i fdict st en =
                .needsStageSelection
                  (some (pySorted (startCandOf n2i fdict st en))) none := by
              unfold price_core
              rw [if_neg hid, hp]
              simp [hS, hE']
            rw [hres]
            refine ⟨?_, ?_, ?_⟩
            · constructor
              · intro _
                exact ⟨hlen, Or.inl ((showStart_iff n2i fdict st en).mp hS)⟩
              · intro _
                exact ⟨_, _, rfl⟩
            · intro l
              constructor
              · intro hl
                cases hl
              · rintro ⟨_, hsc, _, _⟩
                have := (showStart_iff n2i fdict st en).mp hS
                omega
            · intro x
              constructor
              · intro hx
                cases hx
              · intro hx
                simp at hx
        · have hS' : showStartOf n2i fdict st en = false := by
            rw [Bool.not_eq_true] at hS
            exact hS
          have hscle : (startCandOf n2i fdict st en).length ≤ 1 := by
            by_contra hc
            exact hS ((showStart_iff n2i fdict st en).mpr (by omega))
          by_cases hE : showEndOf n2i fdict st en = true
          · have hres : price_core n2i fdict st en =
                .needsStageSelection none
                  (some (pySorted (endCandOf n2i fdict st en))) := by
              unfold price_core
              rw [if_neg hid, hp]
              simp [hS', hE]
            rw [hres]
            refine ⟨?_, ?_, ?_⟩
            · constructor
              · intro _
                exact ⟨hlen, Or.inr ((showEnd_iff n2i fdict st en).mp hE)⟩
              · intro _
                exact ⟨_, _, rfl⟩
            · intro l
              constructor
              · intro hl
                cases hl
              · rintro ⟨_, _, hec, _⟩
                have := (showEnd_iff n2i fdict st en).mp hE
                omega
            · intro x
              constructor
              · intro hx
                cases hx
              · intro hx
                simp at hx
          · have hE' : showEndOf n2i fdict st en = false := by
              rw [Bool.not_eq_true] at hE
              exact hE
            have hecle : (endCandOf n2i fdict st en).length ≤ 1 := by
              by_contra hc
              exact hE ((showEnd_iff n2i fdict st en).mpr (by omega))
            have hres : price_core n2i fdict st en =
                .multipleFares (pySorted (p :: q :: rest2)) := by
              unfold price_core
              rw [if_neg hid, hp]
              simp [hS', hE']
            rw [hres]
            refine ⟨?_, ?_, ?_⟩
            · constructor
              · rintro ⟨a, b, hab⟩
                cases hab
              · rintro ⟨_, hor⟩
                rcases hor with h | h
                · omega
                · omega
            · intro l
              constructor
              · intro hl
                cases hl
                exact ⟨hlen, hscle, hecle, rfl⟩
              · rintro ⟨_, _, _, hl⟩
                rw [hl]
            · intro x
              constructor
              · intro hx
                cases hx
              · intro hx
                simp at hx

theorem foldl_congr_fun {α β : Type} (f g : α → β → α)
    (h : ∀ a b, f a b = g a b) :
    ∀ (l : List β) (a : α), l.foldl f a = l.foldl g a := by
  intro l
  induction l with
  | nil => intro a; rfl
  | cons x xs ih =>
    intro a
    simp only [List.foldl_cons]
    rw [h a x]
    exact ih _

theorem route_files_for_congr {parsed₁ parsed₂ : ParsedData}
    (hperm : List.Perm (parsed₁.map Prod.fst) (parsed₂.map Prod.fst))
    (route : String) :
    route_files_for parsed₁ route = route_files_for parsed₂ route := by
  unfold route_files_for
  rw [pySorted_eq_of_perm hperm]

theorem entryOf_congr {parsed₁ parsed₂ : ParsedData}
    (hlook : ∀ k, alookup parsed₁ k = alookup parsed₂ k) (k : String) :
    entryOf parsed₁ k = entryOf parsed₂ k := by
  unfold entryOf
  rw [hlook k]

theorem mergeKeys_congr {parsed₁ parsed₂ : ParsedData}
    (hlook : ∀ k, alookup parsed₁ k = alookup parsed₂ k)
    (keys : List String) :
    mergeKeys parsed₁ keys = mergeKeys parsed₂ keys := by
  unfold mergeKeys
  apply foldl_congr_fun
  intro m k
  rw [entryOf_congr hlook k]

theorem noRouteStep_congr {parsed₁ parsed₂ : ParsedData}
    (hperm : List.Perm (parsed₁.map Prod.fst) (parsed₂.map Prod.fst))
    (routes : RoutesDF) (faretype : String) (acc : List String)
    (svc : String) :
    noRouteStep parsed₁ routes faretype acc svc =
      noRouteStep parsed₂ routes faretype acc svc := by
  unfold noRouteStep
  cases service_code_to_route_name routes svc with
  | none => rfl
  | some rn =>
    by_cases hrn : rn = "" <;>
      simp [hrn, route_files_for_congr hperm rn]

theorem noRouteKeys_congr {parsed₁ parsed₂ : ParsedData}
    (hperm : List.Perm (parsed₁.map Prod.fst) (parsed₂.map Prod.fst))
    (routes : RoutesDF) (svcOrder : List String) (faretype : String) :
    noRouteKeys parsed₁ routes svcOrder faretype =
      noRouteKeys parsed₂ routes svcOrder faretype := by
  unfold noRouteKeys
  apply foldl_congr_fun
  intro acc svc
  exact noRouteStep_congr hperm routes faretype acc svc

/-- C3 (amended): for a fixed iteration order of the common-services set,
the outcome of `evaluate_price_options` depends only on which documents
exist (their key set and contents), not on the order in which the
document collection supplies them: keys are sorted ascending before each
route's documents are merged first-write-wins.  The counterexample shows
the outcome does depend on the iteration order of the common-services set
itself in the no-route path. -/
theorem merge_supplied_order_independence (parsed₁ parsed₂ : ParsedData)
    (routes : RoutesDF) (stops : StopsDF) (svcOrder : List String)
    (route faretype start_place end_place : String)
    (hperm : List.Perm (parsed₁.map Prod.fst) (parsed₂.map Prod.fst))
    (hlook : ∀ k, alookup parsed₁ k = alookup parsed₂ k) :
    evaluate_price_options parsed₁ routes stops svcOrder route faretype
        start_place end_place =
      evaluate_price_options parsed₂ routes stops svcOrder route faretype
        start_place end_place := by
  simp only [evaluate_price_options]
  simp only [route_files_for_congr hperm, noRouteKeys_congr hperm,
    mergeKeys_congr hlook]

/-- Witness for the amended C3 at a concrete two-document collection
supplied in both orders. -/
theorem merge_supplied_order_independence_witness :
    evaluate_price_options parsedM routesM stopsM ["1", "2"] "" "Single"
        "P" "Q" =
      evaluate_price_options parsedMswap routesM stopsM ["1", "2"] ""
        "Single" "P" "Q" := by
  apply merge_supplied_order_independence
  · exact List.Perm.swap "RB Single" "RA Single" []
  · intro k
    by_cases h1 : ("RA Single" : String) = k
    · subst h1
      decide
    · by_cases h2 : ("RB Single" : String) = k
      · subst h2
        decide
      · simp [parsedM, parsedMswap, alookup, h1, h2]

/-- Counterexample for C3: with the same document set, the no-route
aggregation's merged result depends on the iteration order of the
common-services set: two valid iteration orders of the same two common
services give different fares, so ties between documents of different
services are not broken by ascending document key. -/
theorem merge_order_dependence_counterexample :
    List.Perm ["1", "2"] ["2", "1"] ∧
    common_services_of stopsM "P" "Q" = ["1", "2"] ∧
    evaluate_price_options parsedM routesM stopsM ["1", "2"] "" "Single"
        "P" "Q" = .priced "1.00" ∧
    evaluate_price_options parsedM routesM stopsM ["2", "1"] "" "Single"
        "P" "Q" = .priced "2.00" :=
  ⟨List.Perm.swap "2" "1" [], by decide, by decide, by decide⟩

/-- Counterexample for C4: with route `"Route Y"` selected, service
`"123"` serves both places and its display number `"9A"` textually begins
with `"9"`, yet it is returned — the exclusion tests the service-code
column, not the display number. -/
theorem other_services_nine_counterexample :
    other_services routesN stopsN "Route Y" "A" "B" = some ["9A"] ∧
    pyStartsWith "9A" "9" = true ∧
    (∃ r ∈ routesN.rows, r.number = "9A" ∧
      r.code ∈ common_services_of stopsN "A" "B") := by
  refine ⟨by decide, by decide, ?_⟩
  refine ⟨⟨"123", "Route X", "no", "9A"⟩, by decide, by decide, by decide⟩

/-- C4 (amended): with a route selected and a 4-column route table, every
display number returned by the other-services computation comes from a
route row that serves both places, is not school-flagged, whose service
code (not display number) does not start with `"9"`, and differs from the
current route's display number whenever that number is determined; the
returned list is sorted and duplicate-free. -/
theorem other_services_exclusions (routes : RoutesDF) (stops : StopsDF)
    (route sp ep : String) (l : List String)
    (h4 : 4 ≤ routes.ncols) (hroute : route ≠ "")
    (hres : other_services routes stops route sp ep = some l) :
    (∀ n ∈ l, ∃ r ∈ routes.rows,
      r.number = n ∧ r.code ∈ common_services_of stops sp ep ∧
      pyLower r.school ≠ "yes" ∧ ¬ (pyStartsWith r.code "9" = true) ∧
      (∀ cn, currentNumberOf routes route = some cn → n ≠ cn)) ∧
    List.Sorted strLeRel l ∧ l.Nodup := by
  unfold other_services at hres
  by_cases hse : sp = "" ∨ ep = ""
  · rw [if_pos hse] at hres
    cases hres
  · rw [if_neg hse] at hres
    by_cases hc : common_services_of stops sp ep = []
    · rw [if_pos hc] at hres
      cases hres
    · rw [if_neg hc] at hres
      by_cases hf : pySorted (osNumbers2 routes
          (common_services_of stops sp ep) route).dedup = []
      · rw [if_pos hf] at hres
        cases hres
      · rw [if_neg hf] at hres
        have hl : l = pySorted (osNumbers2 routes
            (common_services_of stops sp ep) route).dedup := by
          cases hres
          rfl
        subst hl
        refine ⟨?_, pySorted_sorted _,
          ((pySorted_perm _).nodup_iff).mpr (List.nodup_dedup _)⟩
        intro n hn
        rw [mem_pySorted, List.mem_dedup] at hn
        have hn2 : n ∈ osNumbers routes (common_services_of stops sp ep)
            (decide (route ≠ "")) ∧
            (∀ cn, currentNumberOf routes route = some cn → n ≠ cn) := by
          unfold osNumbers2 at hn
          rw [if_pos hroute] at hn
          cases hcn : currentNumberOf routes route with
          | none =>
            rw [hcn] at hn
            refine ⟨hn, ?_⟩
            intro cn h2
            exact Option.noConfusion h2
          | some cn =>
            rw [hcn] at hn
            rw [List.mem_filter] at hn
            refine ⟨hn.1, ?_⟩
            intro cn2 h2
            cases h2
            simpa using hn.2
        obtain ⟨hn3, hcnprop⟩ := hn2
        unfold osNumbers at hn3
        rw [if_pos h4] at hn3
        rw [List.mem_map] at hn3
        obtain ⟨r, hr, hrn⟩ := hn3
        unfold osMasked at hr
        rw [List.mem_filter] at hr
        obtain ⟨hrmem, hpred⟩ := hr
        have h3 : 3 ≤ routes.ncols := by omega
        rw [if_pos h3] at hpred
        have hex : decide (route ≠ "") = true := by
          simp [hroute]
        rw [if_pos hex] at hpred
        simp only [Bool.and_eq_true, decide_eq_true_eq,
          Bool.not_eq_true'] at hpred
        exact ⟨r, hrmem, hrn, hpred.1.1, hpred.1.2,
          by simp [hpred.2], hcnprop⟩

/-- Witness for the amended C4 at the concrete tables of the
counterexample. -/
theorem other_services_exclusions_witness :
    (∀ n ∈ ["9A"], ∃ r ∈ routesN.rows,
      r.number = n ∧ r.code ∈ common_services_of stopsN "A" "B" ∧
      pyLower r.school ≠ "yes" ∧ ¬ (pyStartsWith r.code "9" = true) ∧
      (∀ cn, currentNumberOf routesN "Route Y" = some cn → n ≠ cn)) ∧
    List.Sorted strLeRel ["9A"] ∧ (["9A"] : List String).Nodup :=
  other_services_exclusions routesN stopsN "Route Y" "A" "B" ["9A"]
    (by decide) (by decide) (by decide)

theorem foldl_preserve {α β : Type} (P : α → Prop) (f : α → β → α)
    (h : ∀ a b, P a → P (f a b)) :
    ∀ (l : List β) (a : α), P a → P (l.foldl f a) := by
  intro l
  induction l with
  | nil => intro a ha; exact ha
  | cons x xs ih => intro a ha; exact ih _ (h a x ha)

theorem fold_fare_type_mem {acc : List String} {ft x : String}
    (hx : x ∈ fold_fare_type acc ft) :
    x ∈ acc ∨ x = "U19 Single" ∨
      (x = ft ∧
        ¬(ft = "U19 Single" ∨ ft = "U19 MySingle" ∨ ft = "igo Single")) := by
  unfold fold_fare_type at hx
  by_cases h : ft = "U19 Single" ∨ ft = "U19 MySingle" ∨ ft = "igo Single"
  · rw [if_pos h] at hx
    rcases List.mem_append.mp hx with h1 | h1
    · exact Or.inl h1
    · right
      left
      simpa using h1
  · rw [if_neg h] at hx
    by_cases hft : ft ≠ ""
    · rw [if_pos hft] at hx
      rcases List.mem_append.mp hx with h1 | h1
      · exact Or.inl h1
      · right
        right
        exact ⟨by simpa using h1, h⟩
    · rw [if_neg hft] at hx
      exact Or.inl hx

theorem fold_fare_type_no_alias {acc : List String} (ft : String)
    (hp : "U19 MySingle" ∉ acc ∧ "igo Single" ∉ acc) :
    "U19 MySingle" ∉ fold_fare_type acc ft ∧
      "igo Single" ∉ fold_fare_type acc ft := by
  constructor
  · intro hx
    rcases fold_fare_type_mem hx with h | h | ⟨heq, hal⟩
    · exact hp.1 h
    · exact absurd h (by decide)
    · exact hal (Or.inr (Or.inl heq.symm))
  · intro hx
    rcases fold_fare_type_mem hx with h | h | ⟨heq, hal⟩
    · exact hp.2 h
    · exact absurd h (by decide)
    · exact hal (Or.inr (Or.inr heq.symm))

/-- Counterexample for C5: with only a `"U19 Single"`-suffixed document on
the route, resolving with the canonical label prices the journey while
resolving with either alias label reports that no fare files exist — the
three labels are not interchangeable as requests. -/
theorem fare_alias_counterexample :
    evaluate_price_options parsedU routesU stopsU [] "RX" "U19 Single"
        "Town" "Village" = .priced "2.50" ∧
    evaluate_price_options parsedU routesU stopsU [] "RX" "U19 MySingle"
        "Town" "Village" = .noFareFiles ∧
    evaluate_price_options parsedU routesU stopsU [] "RX" "igo Single"
        "Town" "Village" = .noFareFiles :=
  ⟨by decide, by decide, by decide⟩

/-- C5 (amended): alias folding applies when enumerating fare types (the
enumeration never offers `"U19 MySingle"` or `"igo Single"`) and when the
requested fare type is the canonical `"U19 Single"`, which matches a
document with any of the three alias suffixes; a request with a
non-canonical alias label is matched verbatim against the document
suffix. -/
theorem fare_alias_folding :
    (∀ parsed routes stops sr ss se svcO l,
      compute_fare_types parsed routes stops sr ss se svcO = some l →
      "U19 MySingle" ∉ l ∧ "igo Single" ∉ l) ∧
    (∀ route k ft, faretype_from_key route k = some ft →
      (fare_key_matches route "U19 Single" k = true ↔
        (ft = "U19 Single" ∨ ft = "U19 MySingle" ∨ ft = "igo Single"))) ∧
    (∀ route k, fare_key_matches route "U19 MySingle" k = true →
      faretype_from_key route k = some "U19 MySingle") ∧
    (∀ route k, fare_key_matches route "igo Single" k = true →
      faretype_from_key route k = some "igo Single") := by
  have hstep : ∀ (route acc k),
      ("U19 MySingle" ∉ acc ∧ "igo Single" ∉ acc) →
      ("U19 MySingle" ∉ cftStep route acc k ∧
        "igo Single" ∉ cftStep route acc k) := by
    intro route acc k hp
    unfold cftStep
    cases faretype_from_key route k with
    | none => exact hp
    | some ft => exact fold_fare_type_no_alias ft hp
  have hsvcstep : ∀ (parsed : ParsedData) (routes : RoutesDF) (acc svc),
      ("U19 MySingle" ∉ acc ∧ "igo Single" ∉ acc) →
      ("U19 MySingle" ∉ cftSvcStep parsed routes acc svc ∧
        "igo Single" ∉ cftSvcStep parsed routes acc svc) := by
    intro parsed routes acc svc hp
    cases hsc : service_code_to_route_name routes svc with
    | none => simpa only [cftSvcStep, hsc] using hp
    | some rn =>
      by_cases hrn : rn = ""
      · simpa only [cftSvcStep, hsc, if_pos hrn] using hp
      · simp only [cftSvcStep, hsc, if_neg hrn]
        exact foldl_preserve
          (fun acc2 => "U19 MySingle" ∉ acc2 ∧ "igo Single" ∉ acc2)
          (cftStep rn) (hstep rn) (route_files_for parsed rn) acc hp
  refine ⟨?_, ?_, ?_, ?_⟩
  · intro parsed routes stops sr ss se svcO l hres
    unfold compute_fare_types at hres
    by_cases h0 : ¬(sr ≠ "" ∨ (ss ≠ "" ∧ se ≠ ""))
    · rw [if_pos h0] at hres
      cases hres
      exact ⟨by simp, by simp⟩
    · rw [if_neg h0] at hres
      by_cases h1 : sr ≠ ""
      · rw [if_pos h1] at hres
        cases hres
        have hinv := foldl_preserve
          (fun acc => "U19 MySingle" ∉ acc ∧ "igo Single" ∉ acc)
          (cftStep sr) (hstep sr) (route_files_for parsed sr) []
          (by simp)
        constructor
        · intro hm
          rw [mem_pySorted, List.mem_dedup] at hm
          exact hinv.1 hm
        · intro hm
          rw [mem_pySorted, List.mem_dedup] at hm
          exact hinv.2 hm
      · rw [if_neg h1] at hres
        by_cases h2 : stops.rows = []
        · rw [if_pos h2] at hres
          cases hres
          exact ⟨by simp, by simp⟩
        · rw [if_neg h2] at hres
          by_cases h3 : stops.ncols < 8
          · rw [if_pos h3] at hres
            cases hres
          · rw [if_neg h3] at hres
            cases hres
            have hinv := foldl_preserve
              (fun acc => "U19 MySingle" ∉ acc ∧ "igo Single" ∉ acc)
              (cftSvcStep parsed routes) (hsvcstep parsed routes) svcO []
              (by simp)
            constructor
            · intro hm
              rw [mem_pySorted, List.mem_dedup] at hm
              exact hinv.1 hm
            · intro hm
              rw [mem_pySorted, List.mem_dedup] at hm
              exact hinv.2 hm
  · intro route k ft hftk
    simp only [fare_key_matches, hftk]
    by_cases hal : ft = "U19 Single" ∨ ft = "U19 MySingle" ∨ ft = "igo Single"
    · simp [hal]
    · have hne : ft ≠ "U19 Single" := fun hh => hal (Or.inl hh)
      simp [hal, hne]
  · intro route k h
    cases hftk : faretype_from_key route k with
    | none =>
      simp only [fare_key_matches, hftk] at h
      cases h
    | some ft =>
      simp only [fare_key_matches, hftk] at h
      have hcond : ¬("U19 MySingle" = "U19 Single" ∧
          (ft = "U19 Single" ∨ ft = "U19 MySingle" ∨ ft = "igo Single")) :=
        fun hc => absurd hc.1 (by decide)
      rw [if_neg hcond] at h
      have hft : ft = "U19 MySingle" := by simpa using h
      rw [hft]
  · intro route k h
    cases hftk : faretype_from_key route k with
    | none =>
      simp only [fare_key_matches, hftk] at h
      cases h
    | some ft =>
      simp only [fare_key_matches, hftk] at h
      have hcond : ¬("igo Single" = "U19 Single" ∧
          (ft = "U19 Single" ∨ ft = "U19 MySingle" ∨ ft = "igo Single")) :=
        fun hc => absurd hc.1 (by decide)
      rw [if_neg hcond] at h
      have hft : ft = "igo Single" := by simpa using h
      rw [hft]

/-- Witness for the amended C5 at concrete keys and a concrete
collection. -/
theorem fare_alias_folding_witness :
    ("U19 MySingle" ∉ ["U19 Single"] ∧ "igo Single" ∉ ["U19 Single"]) ∧
    (fare_key_matches "RX" "U19 Single" "RX U19 MySingle" = true ↔
      ("U19 MySingle" = "U19 Single" ∨ "U19 MySingle" = "U19 MySingle" ∨
        "U19 MySingle" = "igo Single")) ∧
    faretype_from_key "RX" "RX U19 MySingle" = some "U19 MySingle" ∧
    faretype_from_key "RX" "RX igo Single" = some "igo Single" :=
  ⟨fare_alias_folding.1 parsedU routesU stopsU "RX" "" "" [] ["U19 Single"]
      (by decide),
   fare_alias_folding.2.1 "RX" "RX U19 MySingle" "U19 MySingle" (by decide),
   fare_alias_folding.2.2.1 "RX" "RX U19 MySingle" (by decide),
   fare_alias_folding.2.2.2 "RX" "RX igo Single" (by decide)⟩

theorem foldl_preserve_mem {α β : Type} (P : α → Prop) (f : α → β → α) :
    ∀ (l : List β), (∀ b ∈ l, ∀ a, P a → P (f a b)) →
      ∀ a, P a → P (l.foldl f a) := by
  intro l
  induction l with
  | nil => intro _ a ha; exact ha
  | cons x xs ih =>
    intro h a ha
    exact ih (fun b hb a2 ha2 => h b (List.mem_cons_of_mem _ hb) a2 ha2) _
      (h x (List.mem_cons_self _ _) _ ha)

theorem addToMultimap_alookup_ne (m : List (String × List String))
    (k k' v : String) (h : k ≠ k') :
    alookup (addToMultimap m k v) k' = alookup m k' := by
  induction m with
  | nil =>
    unfold addToMultimap
    rw [alookup_cons]
    rw [if_neg h]
  | cons p rest ih =>
    obtain ⟨pk, pv⟩ := p
    unfold addToMultimap
    by_cases hk : pk = k
    · rw [if_pos hk]
      rw [alookup_cons, alookup_cons]
      have hne : ¬ pk = k' := by
        rw [hk]
        exact h
      rw [if_neg hne, if_neg hne]
    · rw [if_neg hk]
      rw [alookup_cons, alookup_cons]
      by_cases hpk : pk = k'
      · rw [if_pos hpk, if_pos hpk]
      · rw [if_neg hpk, if_neg hpk]
        exact ih

theorem alookup_map_values {α β γ : Type} [DecidableEq α]
    (m : List (α × β)) (f : β → γ) (k : α) :
    alookup (m.map (fun p => (p.1, f p.2))) k = (alookup m k).map f := by
  induction m with
  | nil => rfl
  | cons p rest ih =>
    obtain ⟨pk, pv⟩ := p
    by_cases h : pk = k <;> simp [alookup, h, ih]

theorem build_alookup_none (stops : StopsDF) (sc sp : String)
    (habs : ∀ r ∈ stops.rows, pyStrip r.place ≠ sp) :
    alookup (build_place_to_stage_map_for_service stops sc).1 sp = none := by
  unfold build_place_to_stage_map_for_service
  by_cases h1 : stops.rows = []
  · rw [if_pos h1]
    rfl
  · rw [if_neg h1]
    by_cases h2 : stops.ncols < 8
    · rw [if_pos h2]
      rfl
    · rw [if_neg h2]
      show alookup
        (((stops.rows.filter (fun r => pyStrip r.code = pyStrip sc)).foldl
          (fun acc r =>
            if pyStrip r.stage = "" ∨ pyStrip r.place = "" then acc
            else (addToMultimap acc.1 (pyStrip r.place) (pyStrip r.stage),
                  addToMultimap acc.2 (pyStrip r.stage) (pyStrip r.place)))
          ([], [])).1.map (fun p => (p.1, pySorted p.2))) sp = none
      rw [alookup_map_values]
      have hfold := foldl_preserve_mem
        (fun acc : List (String × List String) × List (String × List String) =>
          alookup acc.1 sp = none)
        (fun acc r =>
          if pyStrip r.stage = "" ∨ pyStrip r.place = "" then acc
          else (addToMultimap acc.1 (pyStrip r.place) (pyStrip r.stage),
                addToMultimap acc.2 (pyStrip r.stage) (pyStrip r.place)))
        (stops.rows.filter (fun r => pyStrip r.code = pyStrip sc))
        (fun r hr acc hacc => by
          have habs2 : pyStrip r.place ≠ sp := habs r (List.mem_of_mem_filter hr)
          by_cases hskip : pyStrip r.stage = "" ∨ pyStrip r.place = ""
          · show alookup
              (if pyStrip r.stage = "" ∨ pyStrip r.place = "" then acc
               else (addToMultimap acc.1 (pyStrip r.place) (pyStrip r.stage),
                     addToMultimap acc.2 (pyStrip r.stage) (pyStrip r.place))).1
              sp = none
            rw [if_pos hskip]
            exact hacc
          · show alookup
              (if pyStrip r.stage = "" ∨ pyStrip r.place = "" then acc
               else (addToMultimap acc.1 (pyStrip r.place) (pyStrip r.stage),
                     addToMultimap acc.2 (pyStrip r.stage) (pyStrip r.place))).1
              sp = none
            rw [if_neg hskip]
            show alookup
              (addToMultimap acc.1 (pyStrip r.place) (pyStrip r.stage)) sp = none
            rw [addToMultimap_alookup_ne _ _ _ _ habs2]
            exact hacc)
        ([], []) rfl
      rw [hfold]
      rfl

theorem reachable_raw_absent (stops : StopsDF) (sp : String)
    (habs : ∀ r ∈ stops.rows, r.place ≠ sp) :
    get_reachable_places stops sp = [] := by
  unfold get_reachable_places
  by_cases h0 : sp = ""
  · rw [if_pos h0]
  · rw [if_neg h0]
    by_cases h1 : stops.rows = []
    · rw [if_pos h1]
    · rw [if_neg h1]
      by_cases h2 : stops.ncols < 8
      · rw [if_pos h2]
      · rw [if_neg h2]
        have hserv : (stops.rows.filter (fun r => r.place = sp)).map
            (fun r => r.code) = [] := by
          rw [List.map_eq_nil_iff]
          rw [List.filter_eq_nil_iff]
          intro r hr
          simp [habs r hr]
        simp only [hserv]
        rfl

/-- Counterexample for C6: a fare query referencing a place that occurs in
no stop row does not always return the no-matching-stages outcome: with no
route selected it fails earlier, reporting that no services serve both
places. -/
theorem unknown_place_counterexample :
    (∀ r ∈ stopsU.rows, r.place ≠ "Nowhere" ∧ pyStrip r.place ≠ "Nowhere") ∧
    get_reachable_places stopsU "Nowhere" = [] ∧
    evaluate_price_options parsedU routesU stopsU [] "" "U19 Single"
      "Nowhere" "Village" = .noServicesBoth ∧
    FareResult.noServicesBoth ≠ FareResult.noMatchingStages := by
  decide

/-- C6 (amended): a place that occurs in no stop row is reachable from
nowhere, and a fare query referencing it returns `noMatchingStages`
whenever the query reaches the stage-translation step — in particular on
the route-selected path once fare files and the service code are found;
with no route selected such a query instead reports that no services
serve both places (see the counterexample). -/
theorem unknown_place_no_matching_stages (parsed : ParsedData)
    (routes : RoutesDF) (stops : StopsDF) (svcOrder : List String)
    (route faretype sp ep sc : String)
    (hft : faretype ≠ "") (hsp : sp ≠ "") (hep : ep ≠ "") (hrt : route ≠ "")
    (hmatched : (route_files_for parsed route).filter
      (fun k => fare_key_matches route faretype k) ≠ [])
    (hsc : route_name_to_service_code routes route = some sc)
    (hsc2 : sc ≠ "")
    (habs : ∀ r ∈ stops.rows, pyStrip r.place ≠ sp ∧ r.place ≠ sp) :
    evaluate_price_options parsed routes stops svcOrder route faretype sp ep
        = .noMatchingStages ∧
    get_reachable_places stops sp = [] := by
  constructor
  · have hguard : ¬(faretype = "" ∨ sp = "" ∨ ep = "") := by
      rintro (h | h | h)
      exacts [hft h, hsp h, hep h]
    simp only [evaluate_price_options]
    rw [if_neg hguard, if_pos hrt, if_neg hmatched]
    simp only [hsc]
    rw [if_neg hsc2]
    rw [build_alookup_none stops sc sp (fun r hr => (habs r hr).1)]
    simp [price_core, translate_ids]
  · exact reachable_raw_absent stops sp (fun r hr => (habs r hr).2)

/-- Witness for the amended C6 at a concrete snapshot and the absent place
`"Nowhere"`. -/
theorem unknown_place_no_matching_stages_witness :
    evaluate_price_options parsedU routesU stopsU [] "RX" "U19 Single"
        "Nowhere" "Village" = .noMatchingStages ∧
    get_reachable_places stopsU "Nowhere" = [] :=
  unknown_place_no_matching_stages parsedU routesU stopsU [] "RX"
    "U19 Single" "Nowhere" "Village" "1" (by decide) (by decide) (by decide)
    (by decide) (by decide) (by decide) (by decide) (by decide)

theorem addToMultimap_invariant (P : String → Prop)
    (m : List (String × List String)) (k v : String)
    (hm : ∀ pr ∈ m, P pr.1 ∧ ∀ s ∈ pr.2, P s) (hk : P k) (hv : P v) :
    ∀ pr ∈ addToMultimap m k v, P pr.1 ∧ ∀ s ∈ pr.2, P s := by
  induction m with
  | nil =>
    intro pr hpr
    unfold addToMultimap at hpr
    rw [List.mem_singleton] at hpr
    subst hpr
    refine ⟨hk, ?_⟩
    intro s hs
    rw [List.mem_singleton] at hs
    subst hs
    exact hv
  | cons p rest ih =>
    obtain ⟨pk, pv⟩ := p
    intro pr hpr
    unfold addToMultimap at hpr
    by_cases hk2 : pk = k
    · rw [if_pos hk2] at hpr
      rcases List.mem_cons.mp hpr with h | h
      · subst h
        refine ⟨(hm (pk, pv) (List.mem_cons_self _ _)).1, ?_⟩
        intro s hs
        by_cases hv2 : v ∈ pv
        · rw [if_pos hv2] at hs
          exact (hm (pk, pv) (List.mem_cons_self _ _)).2 s hs
        · rw [if_neg hv2] at hs
          rcases List.mem_append.mp hs with h2 | h2
          · exact (hm (pk, pv) (List.mem_cons_self _ _)).2 s h2
          · rw [List.mem_singleton] at h2
            subst h2
            exact hv
      · exact hm pr (List.mem_cons_of_mem _ h)
    · rw [if_neg hk2] at hpr
      rcases List.mem_cons.mp hpr with h | h
      · subst h
        exact hm (pk, pv) (List.mem_cons_self _ _)
      · exact ih (fun pr2 hpr2 => hm pr2 (List.mem_cons_of_mem _ hpr2)) pr h

theorem build_fold_invariant (stops : StopsDF) (sc : String) :
    (∀ pr ∈ (((stops.rows.filter
        (fun r => pyStrip r.code = pyStrip sc)).foldl
      (fun acc r =>
        if pyStrip r.stage = "" ∨ pyStrip r.place = "" then acc
        else (addToMultimap acc.1 (pyStrip r.place) (pyStrip r.stage),
              addToMultimap acc.2 (pyStrip r.stage) (pyStrip r.place)))
      ([], []))).1, pr.1 ≠ "" ∧ ∀ s ∈ pr.2, s ≠ "") ∧
    (∀ pr ∈ (((stops.rows.filter
        (fun r => pyStrip r.code = pyStrip sc)).foldl
      (fun acc r =>
        if pyStrip r.stage = "" ∨ pyStrip r.place = "" then acc
        else (addToMultimap acc.1 (pyStrip r.place) (pyStrip r.stage),
              addToMultimap acc.2 (pyStrip r.stage) (pyStrip r.place)))
      ([], []))).2, pr.1 ≠ "" ∧ ∀ s ∈ pr.2, s ≠ "") := by
  have h := foldl_preserve
    (fun acc : List (String × List String) × List (String × List String) =>
      (∀ pr ∈ acc.1, pr.1 ≠ "" ∧ ∀ s ∈ pr.2, s ≠ "") ∧
      (∀ pr ∈ acc.2, pr.1 ≠ "" ∧ ∀ s ∈ pr.2, s ≠ ""))
    (fun acc r =>
      if pyStrip r.stage = "" ∨ pyStrip r.place = "" then acc
      else (addToMultimap acc.1 (pyStrip r.place) (pyStrip r.stage),
            addToMultimap acc.2 (pyStrip r.stage) (pyStrip r.place)))
    (fun acc r hacc => by
      by_cases hskip : pyStrip r.stage = "" ∨ pyStrip r.place = ""
      · show ((fun acc2 : List (String × List String) × List (String × List String) =>
            (∀ pr ∈ acc2.1, pr.1 ≠ "" ∧ ∀ s ∈ pr.2, s ≠ "") ∧
            (∀ pr ∈ acc2.2, pr.1 ≠ "" ∧ ∀ s ∈ pr.2, s ≠ ""))
          (if pyStrip r.stage = "" ∨ pyStrip r.place = "" then acc
           else (addToMultimap acc.1 (pyStrip r.place) (pyStrip r.stage),
                 addToMultimap acc.2 (pyStrip r.stage) (pyStrip r.place))))
        rw [if_pos hskip]
        exact hacc
      · show ((fun acc2 : List (String × List String) × List (String × List String) =>
            (∀ pr ∈ acc2.1, pr.1 ≠ "" ∧ ∀ s ∈ pr.2, s ≠ "") ∧
            (∀ pr ∈ acc2.2, pr.1 ≠ "" ∧ ∀ s ∈ pr.2, s ≠ ""))
          (if pyStrip r.stage = "" ∨ pyStrip r.place = "" then acc
           else (addToMultimap acc.1 (pyStrip r.place) (pyStrip r.stage),
                 addToMultimap acc.2 (pyStrip r.stage) (pyStrip r.place))))
        rw [if_neg hskip]
        push_neg at hskip
        exact ⟨addToMultimap_invariant (fun s => s ≠ "") _ _ _ hacc.1
            hskip.2 hskip.1,
          addToMultimap_invariant (fun s => s ≠ "") _ _ _ hacc.2
            hskip.1 hskip.2⟩)
    (stops.rows.filter (fun r => pyStrip r.code = pyStrip sc))
    ([], []) (by constructor <;> intro pr hpr <;> cases hpr)
  exact h

/-- Counterexample for C7: a stop row whose stage cell holds the literal
string `"nan"` (what `str()` of a missing cell produces) survives into
both derived maps as a stage name. -/
theorem nan_in_stage_map_counterexample :
    (build_place_to_stage_map_for_service stopsNan "10").1 =
      [("Town", ["nan"])] ∧
    (build_place_to_stage_map_for_service stopsNan "10").2 =
      [("nan", ["Town"])] ∧
    pyLower "nan" = "nan" := by
  decide

/-- C7 (amended): the derived maps skip rows whose stage or place is empty
after trimming and never contain an empty name, but they do not filter the
literal `"nan"`; the case-insensitive `"nan"` exclusion is applied in the
all-places enumeration and the reachability query, whose outputs never
contain an empty or `"nan"` name. -/
theorem stage_map_skips_empty (stops : StopsDF) (sc : String) :
    (∀ pr ∈ (build_place_to_stage_map_for_service stops sc).1,
      pr.1 ≠ "" ∧ ∀ s ∈ pr.2, s ≠ "") ∧
    (∀ pr ∈ (build_place_to_stage_map_for_service stops sc).2,
      pr.1 ≠ "" ∧ ∀ s ∈ pr.2, s ≠ "") ∧
    (∀ routes inc p, p ∈ get_all_places_from_stops stops routes inc →
      p ≠ "" ∧ pyLower p ≠ "nan") ∧
    (∀ q p, p ∈ get_reachable_places stops q →
      p ≠ "" ∧ pyLower p ≠ "nan") := by
  refine ⟨?_, ?_, ?_, ?_⟩
  · intro pr hpr
    unfold build_place_to_stage_map_for_service at hpr
    by_cases h1 : stops.rows = []
    · rw [if_pos h1] at hpr
      cases hpr
    · rw [if_neg h1] at hpr
      by_cases h2 : stops.ncols < 8
      · rw [if_pos h2] at hpr
        cases hpr
      · rw [if_neg h2] at hpr
        rw [List.mem_map] at hpr
        obtain ⟨pr0, hpr0, hpr0eq⟩ := hpr
        have hinv := (build_fold_invariant stops sc).1 pr0 hpr0
        subst hpr0eq
        refine ⟨hinv.1, ?_⟩
        intro s hs
        rw [mem_pySorted] at hs
        exact hinv.2 s hs
  · intro pr hpr
    unfold build_place_to_stage_map_for_service at hpr
    by_cases h1 : stops.rows = []
    · rw [if_pos h1] at hpr
      cases hpr
    · rw [if_neg h1] at hpr
      by_cases h2 : stops.ncols < 8
      · rw [if_pos h2] at hpr
        cases hpr
      · rw [if_neg h2] at hpr
        rw [List.mem_map] at hpr
        obtain ⟨pr0, hpr0, hpr0eq⟩ := hpr
        have hinv := (build_fold_invariant stops sc).2 pr0 hpr0
        subst hpr0eq
        refine ⟨hinv.1, ?_⟩
        intro s hs
        rw [mem_pySorted] at hs
        exact hinv.2 s hs
  · intro routes inc p hp
    unfold get_all_places_from_stops at hp
    by_cases h1 : stops.rows = []
    · rw [if_pos h1] at hp
      cases hp
    · rw [if_neg h1] at hp
      by_cases h2 : stops.ncols < 8
      · rw [if_pos h2] at hp
        cases hp
      · rw [if_neg h2] at hp
        have hbase : ∀ x, x ∈ pySorted
            (((stops.rows.map (fun r => pyStrip r.place)).dedup).filter
              (fun q => q ≠ "" ∧ pyLower q ≠ "nan")) →
            x ≠ "" ∧ pyLower x ≠ "nan" := by
          intro x hx
          rw [mem_pySorted, List.mem_filter] at hx
          simpa using hx.2
        by_cases h3 : inc = true
        · rw [if_pos h3] at hp
          exact hbase p hp
        · rw [if_neg h3] at hp
          by_cases h4 : routes.rows = [] ∨ routes.ncols < 3
          · rw [if_pos h4] at hp
            exact hbase p hp
          · rw [if_neg h4] at hp
            rw [mem_pySorted, List.mem_filter] at hp
            exact hbase p hp.1
  · intro q p hp
    unfold get_reachable_places at hp
    by_cases h0 : q = ""
    · rw [if_pos h0] at hp
      cases hp
    · rw [if_neg h0] at hp
      by_cases h1 : stops.rows = []
      · rw [if_pos h1] at hp
        cases hp
      · rw [if_neg h1] at hp
        by_cases h2 : stops.ncols < 8
        · rw [if_pos h2] at hp
          cases hp
        · rw [if_neg h2] at hp
          by_cases h3 : (stops.rows.filter (fun r => r.place = q)).map
              (fun r => r.code) = []
          · rw [if_pos h3] at hp
            cases hp
          · rw [if_neg h3] at hp
            rw [mem_pySorted, List.mem_filter] at hp
            have := hp.2
            simp only [decide_eq_true_eq] at this
            exact ⟨this.2.1, this.2.2⟩

/-- Witness for the amended C7: the nan-bearing map entry of the
counterexample fixture satisfies the nonempty invariant, and a concrete
reachability output is nan-free. -/
theorem stage_map_skips_empty_witness :
    (("Town", ["nan"]).1 ≠ "" ∧ ∀ s ∈ ("Town", ["nan"]).2, s ≠ "") ∧
    ("Village" ≠ "" ∧ pyLower "Village" ≠ "nan") :=
  ⟨(stage_map_skips_empty stopsNan "10").1 ("Town", ["nan"]) (by decide),
   (stage_map_skips_empty stopsU "1").2.2.2 "Town" "Village" (by decide)⟩

theorem addToMultimap_alookup_self (m : List (String × List String))
    (k v : String) : (alookup (addToMultimap m k v) k).isSome := by
  induction m with
  | nil =>
    unfold addToMultimap
    rw [alookup_cons]
    simp
  | cons p rest ih =>
    obtain ⟨pk, pv⟩ := p
    unfold addToMultimap
    by_cases hk : pk = k
    · rw [if_pos hk]
      rw [alookup_cons]
      rw [if_pos hk]
      simp
    · rw [if_neg hk]
      rw [alookup_cons]
      rw [if_neg hk]
      exact ih

theorem addToMultimap_alookup_mono (m : List (String × List String))
    (k v k' : String) (h : (alookup m k').isSome) :
    (alookup (addToMultimap m k v) k').isSome := by
  by_cases hk : k = k'
  · subst hk
    exact addToMultimap_alookup_self m k v
  · rw [addToMultimap_alookup_ne m k k' v hk]
    exact h

theorem foldl_establish {α β : Type} (P : α → Prop) (f : α → β → α)
    (hpres : ∀ a b, P a → P (f a b)) :
    ∀ (l : List β) (b : β), b ∈ l → (∀ a, P (f a b)) →
      ∀ a, P (l.foldl f a) := by
  intro l
  induction l with
  | nil =>
    intro b hb
    cases hb
  | cons x xs ih =>
    intro b hb hest a
    rcases List.mem_cons.mp hb with h | h
    · subst h
      exact foldl_preserve P f hpres xs (f a b) (hest a)
    · exact ih b h hest (f a x)

/-- Counterexample for C8: a stop row whose place cell carries surrounding
whitespace is not matched by a reachability query made with the trimmed
name — the place filter compares raw cell values — while the raw
(whitespace-carrying) query does match. -/
theorem reachable_raw_compare_counterexample :
    (∃ r ∈ stopsWS.rows, pyStrip r.place = "Town" ∧ r.place ≠ "Town") ∧
    get_reachable_places stopsWS "Town" = [] ∧
    get_reachable_places stopsWS " Town " = ["Town", "Village"] := by
  decide

/-- C8 (amended): the place-to-stage map construction compares service
codes after trimming and keys the map by trimmed names, so a row whose
code cell carries whitespace still contributes an entry under its trimmed
place; but the reachability query compares place cells raw, so a place
matched by no raw cell value yields no reachable places even if some cell
trims to it. -/
theorem trimming_in_lookups (stops : StopsDF) (q sc : String) (r : StopRow)
    (hr : r ∈ stops.rows) (hcode : pyStrip r.code = pyStrip sc)
    (hst : pyStrip r.stage ≠ "") (hpl : pyStrip r.place ≠ "")
    (h8 : ¬ stops.ncols < 8) :
    (alookup (build_place_to_stage_map_for_service stops sc).1
      (pyStrip r.place)).isSome ∧
    ((∀ r2 ∈ stops.rows, r2.place ≠ q) →
      get_reachable_places stops q = []) := by
  constructor
  · have h1 : stops.rows ≠ [] := by
      intro hnil
      rw [hnil] at hr
      cases hr
    unfold build_place_to_stage_map_for_service
    rw [if_neg h1, if_neg h8]
    show (alookup
      (((stops.rows.filter (fun r2 => pyStrip r2.code = pyStrip sc)).foldl
        (fun acc r2 =>
          if pyStrip r2.stage = "" ∨ pyStrip r2.place = "" then acc
          else (addToMultimap acc.1 (pyStrip r2.place) (pyStrip r2.stage),
                addToMultimap acc.2 (pyStrip r2.stage) (pyStrip r2.place)))
        ([], [])).1.map (fun p => (p.1, pySorted p.2)))
      (pyStrip r.place)).isSome
    rw [alookup_map_values]
    have hsome : (alookup
        ((stops.rows.filter (fun r2 => pyStrip r2.code = pyStrip sc)).foldl
          (fun acc r2 =>
            if pyStrip r2.stage = "" ∨ pyStrip r2.place = "" then acc
            else (addToMultimap acc.1 (pyStrip r2.place) (pyStrip r2.stage),
                  addToMultimap acc.2 (pyStrip r2.stage) (pyStrip r2.place)))
          ([], [])).1 (pyStrip r.place)).isSome := by
      exact foldl_establish
        (fun acc : List (String × List String) × List (String × List String) =>
          (alookup acc.1 (pyStrip r.place)).isSome)
        (fun (acc : List (String × List String) × List (String × List String))
            (r2 : StopRow) =>
          if pyStrip r2.stage = "" ∨ pyStrip r2.place = "" then acc
          else (addToMultimap acc.1 (pyStrip r2.place) (pyStrip r2.stage),
                addToMultimap acc.2 (pyStrip r2.stage) (pyStrip r2.place)))
        (fun acc r2 hacc => by
          by_cases hskip : pyStrip r2.stage = "" ∨ pyStrip r2.place = ""
          · show (alookup
              (if pyStrip r2.stage = "" ∨ pyStrip r2.place = "" then acc
               else (addToMultimap acc.1 (pyStrip r2.place) (pyStrip r2.stage),
                     addToMultimap acc.2 (pyStrip r2.stage) (pyStrip r2.place))).1
              (pyStrip r.place)).isSome
            rw [if_pos hskip]
            exact hacc
          · show (alookup
              (if pyStrip r2.stage = "" ∨ pyStrip r2.place = "" then acc
               else (addToMultimap acc.1 (pyStrip r2.place) (pyStrip r2.stage),
                     addToMultimap acc.2 (pyStrip r2.stage) (pyStrip r2.place))).1
              (pyStrip r.place)).isSome
            rw [if_neg hskip]
            exact addToMultimap_alookup_mono _ _ _ _ hacc)
        (stops.rows.filter (fun r2 => pyStrip r2.code = pyStrip sc))
        r
        (List.mem_filter.mpr ⟨hr, by simp [hcode]⟩)
        (fun acc => by
          have hskip : ¬(pyStrip r.stage = "" ∨ pyStrip r.place = "") := by
            rintro (h | h)
            exacts [hst h, hpl h]
          show (alookup
            (if pyStrip r.stage = "" ∨ pyStrip r.place = "" then acc
             else (addToMultimap acc.1 (pyStrip r.place) (pyStrip r.stage),
                   addToMultimap acc.2 (pyStrip r.stage) (pyStrip r.place))).1
            (pyStrip r.place)).isSome
          rw [if_neg hskip]
          exact addToMultimap_alookup_self _ _ _)
        ([], [])
    rcases Option.isSome_iff_exists.mp hsome with ⟨v, hv⟩
    rw [hv]
    rfl
  · intro habs
    exact reachable_raw_absent stops q habs

/-- Witness for the amended C8 at a table whose only row stores its
service code with surrounding whitespace. -/
theorem trimming_in_lookups_witness :
    (alookup (build_place_to_stage_map_for_service stopsWS2 "10").1
      "Town").isSome ∧
    get_reachable_places stopsWS2 "Missing" = [] := by
  have h := trimming_in_lookups stopsWS2 "Missing" "10"
    ⟨" 10 ", "A", "Town"⟩ (by decide) (by decide) (by decide) (by decide)
    (by decide)
  exact ⟨h.1, h.2 (by decide)⟩

end Fares
